import Mathlib

/-!
Verification of the diary-comics upload pipeline.

Shallow embedding of the upload-pipeline core of the repository:
the filename parser (`src/utils/dateParser.ts`), the file marker
(`scripts/utils/fileRenamer.ts`), the duplicate resolver
(`scripts/services/duplicateHandler.ts`), the upload client
(`scripts/services/uploadService.ts`) and the upload queue
(`scripts/services/uploadQueue.ts`).  External effects (file system,
Cloudinary API) are modelled as explicit oracle functions passed in;
pure TypeScript functions become Lean functions.
-/

namespace DiaryComics

/-- A JS `Date` as far as the pipeline inspects one: the calendar
components returned by `getFullYear`, `getMonth` (0-based month index)
and `getDate` (1-based day of month).  The parser fixes the time of day
to noon, which none of the inspected components depend on. -/
structure JSDate where
  fullYear : Nat
  monthIndex : Nat
  dayOfMonth : Nat
deriving Repr, DecidableEq

/-- Gregorian leap-year rule, as implemented by JS `Date`. -/
def isLeapYear (y : Nat) : Bool :=
  y % 4 == 0 && (y % 100 != 0 || y % 400 == 0)

/-- Number of days of month `m` (1-based) in year `y`. -/
def daysInMonth (y m : Nat) : Nat :=
  if m == 2 then (if isLeapYear y then 29 else 28)
  else if m == 4 || m == 6 || m == 9 || m == 11 then 30
  else 31

/-- `new Date(y, mi, d, 12, 0, 0, 0)` restricted to the arguments the
parser can pass: `mi ∈ [0, 11]` and `d ∈ [1, 31]`.  JS normalizes an
out-of-range day by rolling the excess over into the following month;
in this argument range at most one month of rollover can happen
(`d - daysInMonth ≤ 3`, which is at most the length of any month). -/
def jsMakeDate (y mi d : Nat) : JSDate :=
  if d ≤ daysInMonth y (mi + 1) then ⟨y, mi, d⟩
  else if mi + 1 == 12 then ⟨y + 1, 0, d - daysInMonth y 12⟩
  else ⟨y, mi + 1, d - daysInMonth y (mi + 1)⟩

/-- Value of a list of decimal digits, as `parseInt(s, 10)` computes it
on an all-digit string. -/
def digitsToNat (cs : List Char) : Nat :=
  cs.foldl (fun n c => 10 * n + (c.toNat - '0'.toNat)) 0

/-- The alternatives of the extension-stripping regex
`/\.(jpg|jpeg|png|gif|webp|bmp|tiff)$/i`. -/
def imageExts : List (List Char) :=
  ["jpg".toList, "jpeg".toList, "png".toList, "gif".toList,
   "webp".toList, "bmp".toList, "tiff".toList]

/-- `filename.replace(/\.(jpg|jpeg|png|gif|webp|bmp|tiff)$/i, "")`:
strip one case-insensitive image extension from the end, if present.
At most one alternative can match a given string (no listed extension is
a dot-preceded suffix of another), so trying them in order is faithful. -/
def stripImageExt (cs : List Char) : List Char :=
  match imageExts.find? (fun e => ('.' :: e).isSuffixOf (cs.map Char.toLower)) with
  | some e => cs.take (cs.length - (e.length + 1))
  | none => cs

/-- Matcher for the anchored regex `^(\d{1,2})\.(\d{1,2})\.(\d{2})_(\d+)$`
of `parseFilename`.  Each digit group is followed by a non-digit literal
(`.`, `_`, or end of input), so greedy matching with backtracking
coincides with taking each maximal digit run and checking its length. -/
def matchDiaryPattern (cs : List Char) : Option (Nat × Nat × Nat × Nat) :=
  let p1 := cs.span Char.isDigit
  if p1.1.length < 1 || 2 < p1.1.length then none else
  match p1.2 with
  | '.' :: r2 =>
    let p2 := r2.span Char.isDigit
    if p2.1.length < 1 || 2 < p2.1.length then none else
    match p2.2 with
    | '.' :: r4 =>
      let p3 := r4.span Char.isDigit
      if p3.1.length ≠ 2 then none else
      match p3.2 with
      | '_' :: r6 =>
        let p4 := r6.span Char.isDigit
        if p4.1.length < 1 || p4.2 ≠ [] then none
        else some (digitsToNat p1.1, digitsToNat p2.1, digitsToNat p3.1, digitsToNat p4.1)
      | _ => none
    | _ => none
  | _ => none

/-- Result type of `parseFilename` (`ParsedFilename` in `types/diary.ts`). -/
structure ParsedFilename where
  filename : String
  date : JSDate
  sequence : Nat
  isValid : Bool
  error : Option String := none
deriving Repr, DecidableEq

/-- Stand-in for `new Date()` (the wall-clock date), which the source
stores in every failure branch of `parseFilename`.  No claim and no
caller of the pipeline inspects this value on an invalid parse. -/
def nowDate : JSDate := ⟨2026, 0, 1⟩

/-- `parseFilename` of `src/utils/dateParser.ts`: parse `M.D.YY_seq`
with optional image extension, range-check month, day and sequence,
widen the two-digit year, build the date at noon, and reject if the
built date normalized away an impossible month/day combination. -/
def parseFilename (filename : String) : ParsedFilename :=
  let nameWithoutExt := stripImageExt filename.toList
  match matchDiaryPattern nameWithoutExt with
  | none =>
    { filename, date := nowDate, sequence := 0, isValid := false,
      error := some ("Invalid filename format. Expected M.D.YY_sequence, got: "
        ++ String.mk nameWithoutExt ++ " (original: " ++ filename ++ ")") }
  | some (month, day, year, sequence) =>
    if month < 1 ∨ 12 < month then
      { filename, date := nowDate, sequence := 0, isValid := false,
        error := some ("Invalid month: " ++ toString month ++ ". Must be between 1 and 12.") }
    else if day < 1 ∨ 31 < day then
      { filename, date := nowDate, sequence := 0, isValid := false,
        error := some ("Invalid day: " ++ toString day ++ ". Must be between 1 and 31.") }
    else if sequence < 1 then
      { filename, date := nowDate, sequence := 0, isValid := false,
        error := some ("Invalid sequence: " ++ toString sequence ++ ". Must be >= 1.") }
    else
      let fullYear := if year ≤ 30 then 2000 + year else 1900 + year
      let date := jsMakeDate fullYear (month - 1) day
      if date.fullYear ≠ fullYear ∨ date.monthIndex ≠ month - 1 ∨ date.dayOfMonth ≠ day then
        { filename, date := nowDate, sequence := 0, isValid := false,
          error := some ("Invalid date: " ++ toString month ++ "/" ++ toString day
            ++ "/" ++ toString fullYear) }
      else
        { filename, date, sequence, isValid := true }

example : (parseFilename "1.1.21_1").isValid = true := by decide
example : (parseFilename "12.25.21_2.JPG").isValid = true := by decide
example : (parseFilename "4.31.21_1").isValid = false := by decide
example : (parseFilename "2.29.21_1").isValid = false := by decide
example : (parseFilename "2.29.24_1").isValid = true := by decide
example : (parseFilename "13.1.21_1").isValid = false := by decide
example : (parseFilename "1.1.21_0").isValid = false := by decide
example : (parseFilename "not_a_filename").isValid = false := by decide
example : (parseFilename "1.1.30_1").date.fullYear = 2030 := by decide
example : (parseFilename "1.1.31_1").date.fullYear = 1931 := by decide

lemma daysInMonth_pos (y m : Nat) : 1 ≤ daysInMonth y m := by
  unfold daysInMonth
  split <;> [skip; split] <;> first | omega | (split <;> omega)

/-- Every valid parse exposes its digit groups: the stored sequence and
calendar components agree with the matched digits, the ranges hold, the
year is the two-digit widening, and the day fits the month. -/
lemma parseFilename_valid_spec (s : String)
    (h : (parseFilename s).isValid = true) :
    ∃ m d yy seq, matchDiaryPattern (stripImageExt s.toList) = some (m, d, yy, seq) ∧
      1 ≤ m ∧ m ≤ 12 ∧ 1 ≤ d ∧ d ≤ 31 ∧ 1 ≤ seq ∧
      (parseFilename s).sequence = seq ∧
      (parseFilename s).date.monthIndex + 1 = m ∧
      (parseFilename s).date.dayOfMonth = d ∧
      (parseFilename s).date.fullYear = (if yy ≤ 30 then 2000 + yy else 1900 + yy) ∧
      d ≤ daysInMonth (if yy ≤ 30 then 2000 + yy else 1900 + yy) m := by
  cases hm : matchDiaryPattern (stripImageExt s.toList) with
  | none =>
    exact absurd h (by unfold parseFilename; simp only [hm]; simp)
  | some g =>
    obtain ⟨m, d, yy, seq⟩ := g
    by_cases h1 : m < 1 ∨ 12 < m
    · exact absurd h (by unfold parseFilename; simp only [hm, if_pos h1]; simp)
    by_cases h2 : d < 1 ∨ 31 < d
    · exact absurd h (by unfold parseFilename; simp only [hm, if_neg h1, if_pos h2]; simp)
    by_cases h3 : seq < 1
    · exact absurd h (by
        unfold parseFilename; simp only [hm, if_neg h1, if_neg h2, if_pos h3]; simp)
    by_cases h4 : (jsMakeDate (if yy ≤ 30 then 2000 + yy else 1900 + yy) (m - 1) d).fullYear
          ≠ (if yy ≤ 30 then 2000 + yy else 1900 + yy) ∨
        (jsMakeDate (if yy ≤ 30 then 2000 + yy else 1900 + yy) (m - 1) d).monthIndex ≠ m - 1 ∨
        (jsMakeDate (if yy ≤ 30 then 2000 + yy else 1900 + yy) (m - 1) d).dayOfMonth ≠ d
    · exact absurd h (by
        unfold parseFilename
        simp only [hm, if_neg h1, if_neg h2, if_neg h3, if_pos h4]
        simp)
    have hps : parseFilename s =
        { filename := s, date := jsMakeDate (if yy ≤ 30 then 2000 + yy else 1900 + yy) (m - 1) d,
          sequence := seq, isValid := true, error := none } := by
      unfold parseFilename
      simp only [hm, if_neg h1, if_neg h2, if_neg h3, if_neg h4]
    rw [hps]
    push_neg at h1 h2 h4
    obtain ⟨e1, e2, e3⟩ := h4
    refine ⟨m, d, yy, seq, rfl, by omega, h1.2, by omega, h2.2, by omega, rfl, ?_, e3, e1, ?_⟩
    · rw [e2]; omega
    · by_contra hgt
      push_neg at hgt
      have hm1 : m - 1 + 1 = m := by omega
      unfold jsMakeDate at e3
      rw [hm1] at e3
      rw [if_neg (by omega)] at e3
      split at e3 <;> simp only at e3 <;>
        [have := daysInMonth_pos (if yy ≤ 30 then 2000 + yy else 1900 + yy) 12;
         have := daysInMonth_pos (if yy ≤ 30 then 2000 + yy else 1900 + yy) m] <;> omega

/-- C3: `parseFilename` is total by construction (a Lean function on all
of `String`, returning a `ParsedFilename` and signalling failure only
via `isValid = false` and `error`); and whenever `isValid = true`, the
stored date's calendar month and day equal the matched digit groups
exactly (so impossible combinations such as day 31 in a 30-day month are
rejected, witnessed by `d ≤ daysInMonth`), the year is the fixed
two-digit widening of the matched `YY`, month lies in `[1, 12]`, and
`sequence ≥ 1`. -/
theorem parseFilename_isValid_digits (s : String)
    (h : (parseFilename s).isValid = true) :
    ∃ m d yy seq, matchDiaryPattern (stripImageExt s.toList) = some (m, d, yy, seq) ∧
      1 ≤ m ∧ m ≤ 12 ∧ 1 ≤ d ∧ d ≤ 31 ∧ 1 ≤ seq ∧
      (parseFilename s).sequence = seq ∧
      (parseFilename s).date.monthIndex + 1 = m ∧
      (parseFilename s).date.dayOfMonth = d ∧
      (parseFilename s).date.fullYear = (if yy ≤ 30 then 2000 + yy else 1900 + yy) ∧
      d ≤ daysInMonth (if yy ≤ 30 then 2000 + yy else 1900 + yy) m :=
  parseFilename_valid_spec s h

/-- Witness for `parseFilename_isValid_digits` at the concrete filename
`"1.2.21_3"`. -/
theorem parseFilename_isValid_digits_witness :
    (parseFilename "1.2.21_3").isValid = true ∧
    (∃ m d yy seq,
      matchDiaryPattern (stripImageExt "1.2.21_3".toList) = some (m, d, yy, seq) ∧
      1 ≤ m ∧ m ≤ 12 ∧ 1 ≤ d ∧ d ≤ 31 ∧ 1 ≤ seq ∧
      (parseFilename "1.2.21_3").sequence = seq ∧
      (parseFilename "1.2.21_3").date.monthIndex + 1 = m ∧
      (parseFilename "1.2.21_3").date.dayOfMonth = d ∧
      (parseFilename "1.2.21_3").date.fullYear = (if yy ≤ 30 then 2000 + yy else 1900 + yy) ∧
      d ≤ daysInMonth (if yy ≤ 30 then 2000 + yy else 1900 + yy) m) :=
  ⟨by decide, parseFilename_isValid_digits "1.2.21_3" (by decide)⟩

/-- C8: every successful parse widens its two-digit year `YY` to
`2000 + YY` when `YY ≤ 30` and to `1900 + YY` otherwise; in particular
`"1.1.30_1"` parses to year 2030 and `"1.1.31_1"` to year 1931. -/
theorem parseFilename_year_conversion :
    (∀ s, (parseFilename s).isValid = true →
      ∃ m d yy seq, matchDiaryPattern (stripImageExt s.toList) = some (m, d, yy, seq) ∧
        (parseFilename s).date.fullYear = (if yy ≤ 30 then 2000 + yy else 1900 + yy)) ∧
    (parseFilename "1.1.30_1").isValid = true ∧
    (parseFilename "1.1.30_1").date.fullYear = 2030 ∧
    (parseFilename "1.1.31_1").isValid = true ∧
    (parseFilename "1.1.31_1").date.fullYear = 1931 := by
  refine ⟨fun s h => ?_, by decide, by decide, by decide, by decide⟩
  obtain ⟨m, d, yy, seq, hmatch, _, _, _, _, _, _, _, _, hyear, _⟩ :=
    parseFilename_valid_spec s h
  exact ⟨m, d, yy, seq, hmatch, hyear⟩

/-- Witness for `parseFilename_year_conversion` at `"12.25.21_2"`. -/
theorem parseFilename_year_conversion_witness :
    (parseFilename "12.25.21_2").isValid = true ∧
    (∃ m d yy seq,
      matchDiaryPattern (stripImageExt "12.25.21_2".toList) = some (m, d, yy, seq) ∧
      (parseFilename "12.25.21_2").date.fullYear = (if yy ≤ 30 then 2000 + yy else 1900 + yy)) :=
  ⟨by decide, parseFilename_year_conversion.1 "12.25.21_2" (by decide)⟩

/-! ## File marker (`scripts/utils/fileRenamer.ts`)

The local file system is modelled by an oracle `fsExists : String → Bool`
(the `existsSync` answers).  The `rename` syscall itself is modelled as
succeeding once the three guard checks pass; a thrown fs error would be
caught by the source and returned as an `error` string, a branch that
carries no further state the claims inspect. -/

/-- The marker token prepended to the basename of processed files. -/
def uploadedTagChars : List Char := "[uploaded]_".toList

/-- POSIX `path.basename`: drop trailing separators, then keep what
follows the last remaining `/`. -/
def basenameChars (cs : List Char) : List Char :=
  ((cs.reverse.dropWhile (· == '/')).takeWhile (· ≠ '/')).reverse

/-- POSIX `path.dirname`: drop the basename and its trailing
separators; `.` for a bare filename, `/` when only the root remains. -/
def dirnameChars (cs : List Char) : List Char :=
  let rest := ((cs.reverse.dropWhile (· == '/')).dropWhile (· ≠ '/'))
  let rest2 := rest.dropWhile (· == '/')
  if rest2 = [] then (if rest = [] then ['.'] else ['/']) else rest2.reverse

/-- `path.join(dir, name)` for the shapes the marker produces: a plain
`.` directory collapses away, otherwise the components are joined with
a single separator. -/
def pathJoinChars (dir name : List Char) : List Char :=
  if dir = ['.'] then name
  else if dir.getLast? = some '/' then dir ++ name
  else dir ++ '/' :: name

/-- Result record of the marker operations (`RenameResult`). -/
structure RenameResult where
  success : Bool
  originalPath : String
  newPath : Option String := none
  error : Option String := none
deriving Repr, DecidableEq

/-- `isFileMarkedAsUploaded`: pure predicate on the basename. -/
def isFileMarkedAsUploaded (filePath : String) : Bool :=
  uploadedTagChars.isPrefixOf (basenameChars filePath.toList)

/-- `getOriginalFilename`: take the basename and strip the marker token
when present. -/
def getOriginalFilename (uploadedFilePath : String) : String :=
  let filename := basenameChars uploadedFilePath.toList
  if uploadedTagChars.isPrefixOf filename then
    String.mk (filename.drop uploadedTagChars.length)
  else String.mk filename

/-- `markFileAsUploaded`: rename `dir/name` to `dir/[uploaded]_name`
unless the file is missing, already marked, or the target name is
taken. -/
def markFileAsUploaded (fsExists : String → Bool) (filePath : String) : RenameResult :=
  if ¬ fsExists filePath = true then
    { success := false, originalPath := filePath, error := some "File does not exist" }
  else
    let filename := basenameChars filePath.toList
    if uploadedTagChars.isPrefixOf filename then
      { success := false, originalPath := filePath,
        error := some "File is already marked as uploaded" }
    else
      let newFilename := uploadedTagChars ++ filename
      let newPath := String.mk (pathJoinChars (dirnameChars filePath.toList) newFilename)
      if fsExists newPath then
        { success := false, originalPath := filePath,
          error := some ("Target file already exists: " ++ String.mk newFilename) }
      else
        { success := true, originalPath := filePath, newPath := some newPath }

example : basenameChars "/a/b.jpg".toList = "b.jpg".toList := by decide
example : dirnameChars "/a/b.jpg".toList = "/a".toList := by decide
example : dirnameChars "b.jpg".toList = ".".toList := by decide
example : getOriginalFilename "[uploaded]_1.1.21_1.jpg" = "1.1.21_1.jpg" := by decide
example : isFileMarkedAsUploaded "/d/[uploaded]_x.jpg" = true := by decide
example : isFileMarkedAsUploaded "/d/x.jpg" = false := by decide

/-- C7 counterexample: on a path that carries a directory component and
no marker token, `getOriginalFilename` returns the basename, not its
input unchanged. -/
theorem getOriginalFilename_counterexample :
    uploadedTagChars.isPrefixOf (basenameChars "/photos/1.1.21_1.jpg".toList) = false ∧
    getOriginalFilename "/photos/1.1.21_1.jpg" = "1.1.21_1.jpg" ∧
    getOriginalFilename "/photos/1.1.21_1.jpg" ≠ "/photos/1.1.21_1.jpg" := by
  refine ⟨by decide, by decide, by decide⟩

lemma dropWhile_eq_self_of {α : Type} (p : α → Bool) (l : List α)
    (h : ∀ c ∈ l, ¬ p c = true) : l.dropWhile p = l := by
  cases l with
  | nil => rfl
  | cons a t => exact List.dropWhile_cons_of_neg (h a (List.mem_cons_self a t))

lemma takeWhile_eq_self_of {α : Type} (p : α → Bool) (l : List α)
    (h : ∀ c ∈ l, p c = true) : l.takeWhile p = l := by
  induction l with
  | nil => rfl
  | cons a t ih =>
    rw [List.takeWhile_cons_of_pos (h a (List.mem_cons_self a t))]
    rw [ih (fun c hc => h c (List.mem_cons_of_mem a hc))]

lemma basenameChars_of_no_slash (cs : List Char) (h : '/' ∉ cs) :
    basenameChars cs = cs := by
  unfold basenameChars
  rw [dropWhile_eq_self_of _ _ (fun c hc => by
    simp only [beq_iff_eq]
    intro he; exact h (by rw [← he]; exact List.mem_reverse.mp (by rw [he] at hc ⊢; exact hc)))]
  rw [takeWhile_eq_self_of _ _ (fun c hc => by
    simp only [decide_eq_true_eq]
    intro he; rw [he] at hc; exact h (List.mem_reverse.mp hc))]
  exact List.reverse_reverse cs

lemma dirnameChars_of_no_slash (cs : List Char) (h : '/' ∉ cs) :
    dirnameChars cs = ['.'] := by
  have h1 : cs.reverse.dropWhile (· == '/') = cs.reverse :=
    dropWhile_eq_self_of _ _ (fun c hc hceq => by
      rw [beq_iff_eq] at hceq
      rw [hceq] at hc
      exact h (List.mem_reverse.mp hc))
  have h2 : cs.reverse.dropWhile (· ≠ '/') = [] := by
    rw [List.dropWhile_eq_nil_iff]
    intro c hc
    have hcm : c ∈ cs := List.mem_reverse.mp hc
    have : c ≠ '/' := fun he => h (he ▸ hcm)
    simpa using this
  unfold dirnameChars
  rw [h1, h2]
  rfl

/-- C7 (amended): `getOriginalFilename` works on the basename of its
input.  For a plain original filename (no directory separators) that
does not already carry the marker token, it returns its input
unchanged; and whenever `markFileAsUploaded` succeeds on such a file,
applying `getOriginalFilename` to the produced path recovers the
original filename — marking is inverted. -/
lemma getOriginalFilename_of_tagged (p : String) (hp : '/' ∉ p.toList) :
    getOriginalFilename (String.mk (uploadedTagChars ++ p.toList)) = p := by
  have hnos : '/' ∉ (uploadedTagChars ++ p.toList) := by
    intro hmem
    rcases List.mem_append.mp hmem with hmem | hmem
    · exact absurd hmem (by decide)
    · exact hp hmem
  have hbase2 : basenameChars ((String.mk (uploadedTagChars ++ p.toList)).toList)
      = uploadedTagChars ++ p.toList := basenameChars_of_no_slash _ hnos
  have hpref2 : uploadedTagChars.isPrefixOf (uploadedTagChars ++ p.toList) = true :=
    List.isPrefixOf_iff_prefix.mpr (List.prefix_append _ _)
  unfold getOriginalFilename
  rw [hbase2, if_pos hpref2, List.drop_left]
  cases p
  rfl

theorem getOriginalFilename_inverts_marking (fs : String → Bool) (p : String)
    (hp : '/' ∉ p.toList) :
    (uploadedTagChars.isPrefixOf p.toList = false → getOriginalFilename p = p) ∧
    (∀ np, (markFileAsUploaded fs p).newPath = some np → getOriginalFilename np = p) := by
  have hbase : basenameChars p.toList = p.toList := basenameChars_of_no_slash _ hp
  constructor
  · intro hpref
    unfold getOriginalFilename
    rw [hbase, if_neg (by rw [hpref]; exact Bool.false_ne_true)]
    cases p
    rfl
  · intro np hnp
    simp only [markFileAsUploaded] at hnp
    split at hnp
    · simp at hnp
    · split at hnp
      · simp at hnp
      · split at hnp
        · simp at hnp
        · simp only [Option.some.injEq] at hnp
          rw [← hnp, hbase, dirnameChars_of_no_slash _ hp]
          rw [show pathJoinChars ['.'] (uploadedTagChars ++ p.toList)
              = uploadedTagChars ++ p.toList from rfl]
          exact getOriginalFilename_of_tagged p hp

/-- Witness for `getOriginalFilename_inverts_marking` at the plain
filename `"1.1.21_1.jpg"` with a file system where only it exists. -/
theorem getOriginalFilename_inverts_marking_witness :
    ('/' ∉ "1.1.21_1.jpg".toList) ∧
    (uploadedTagChars.isPrefixOf "1.1.21_1.jpg".toList = false →
      getOriginalFilename "1.1.21_1.jpg" = "1.1.21_1.jpg") ∧
    (∀ np, (markFileAsUploaded (fun s => s == "1.1.21_1.jpg") "1.1.21_1.jpg").newPath = some np →
      getOriginalFilename np = "1.1.21_1.jpg") :=
  ⟨by decide,
   (getOriginalFilename_inverts_marking (fun s => s == "1.1.21_1.jpg") "1.1.21_1.jpg"
     (by decide)).1,
   (getOriginalFilename_inverts_marking (fun s => s == "1.1.21_1.jpg") "1.1.21_1.jpg"
     (by decide)).2⟩

/-! ## Duplicate resolver (`scripts/services/duplicateHandler.ts`)

The remote store is an oracle `remote : String → RemoteAnswer` giving
the outcome of one `cloudinary.api.resource(publicId)` call.  Remote
query counts are threaded through explicitly so that "no remote query
happened" is a provable statement. -/

/-- Outcome of one `cloudinary.api.resource` call: resource found, a
404 answer, or any other error. -/
inductive RemoteAnswer where
  | found
  | notFound
  | err (msg : String)
deriving Repr, DecidableEq

/-- `publicIdExists`: `true` on success, `false` on a 404, and any
other error is re-thrown. -/
def publicIdExists (remote : String → RemoteAnswer) (publicId : String) :
    Except String Bool :=
  match remote publicId with
  | .found => .ok true
  | .notFound => .ok false
  | .err m => .error m

/-- Candidate identifier `base_counter`. -/
def suffixedId (base : String) (counter : Nat) : String :=
  base ++ "_" ++ toString counter

/-- Loop body of `generateUniquePublicId`, with the remote-query count.
The source guards the loop with `counter > 1000`, checked right after
incrementing `counter`; here `fuel` carries `1000 - counter`, so the
guard trips exactly when the fuel runs out. -/
def genUniqueAux (remote : String → RemoteAnswer) (base : String) :
    Nat → Nat → Except String String × Nat
  | counter, fuel =>
    match publicIdExists remote (suffixedId base counter), fuel with
    | .error m, _ => (.error m, 1)
    | .ok false, _ => (.ok (suffixedId base counter), 1)
    | .ok true, 0 => (.error "Could not generate unique public ID after 1000 attempts", 1)
    | .ok true, fuel + 1 =>
      let r := genUniqueAux remote base (counter + 1) fuel
      (r.1, r.2 + 1)

/-- `generateUniquePublicId`: append `_1`, `_2`, … until an identifier
is absent remotely, hard failure after the 1000th existing suffix. -/
def generateUniquePublicId (remote : String → RemoteAnswer) (basePublicId : String) :
    Except String String × Nat :=
  genUniqueAux remote basePublicId 1 999

lemma genUniqueAux_finds (remote : String → RemoteAnswer) (base : String) (k : Nat)
    (habsent : remote (suffixedId base k) = .notFound) :
    ∀ fuel c, c ≤ k → k ≤ c + fuel →
      (∀ j, c ≤ j → j < k → remote (suffixedId base j) = .found) →
      (genUniqueAux remote base c fuel).1 = .ok (suffixedId base k) := by
  intro fuel
  induction fuel with
  | zero =>
    intro c hck hkc _
    have : c = k := by omega
    subst this
    unfold genUniqueAux publicIdExists
    rw [habsent]
  | succ f ih =>
    intro c hck hkc hfound
    by_cases hc : c = k
    · subst hc
      unfold genUniqueAux publicIdExists
      rw [habsent]
    · have hlt : c < k := by omega
      unfold genUniqueAux publicIdExists
      rw [hfound c (le_refl c) hlt]
      exact ih (c + 1) (by omega) (by omega) (fun j h1 h2 => hfound j (by omega) h2)

lemma genUniqueAux_exhausted (remote : String → RemoteAnswer) (base : String) :
    ∀ fuel c, (∀ j, c ≤ j → j ≤ c + fuel → remote (suffixedId base j) = .found) →
      (genUniqueAux remote base c fuel).1
        = .error "Could not generate unique public ID after 1000 attempts" := by
  intro fuel
  induction fuel with
  | zero =>
    intro c h
    unfold genUniqueAux publicIdExists
    rw [h c (le_refl c) (by omega)]
  | succ f ih =>
    intro c h
    unfold genUniqueAux publicIdExists
    rw [h c (le_refl c) (by omega)]
    exact ih (c + 1) (fun j h1 h2 => h j (by omega) (by omega))

/-- C6: under the rename policy, resolution returns `base_k` for the
smallest `k ≥ 1` whose suffixed identifier is absent remotely (when
`k ≤ 1000`), and raises the hard failure once 1000 suffixes have all
been found to exist. -/
theorem generateUniquePublicId_smallest_free_suffix (remote : String → RemoteAnswer)
    (base : String) :
    (∀ k, 1 ≤ k → k ≤ 1000 →
      (∀ j, 1 ≤ j → j < k → remote (suffixedId base j) = .found) →
      remote (suffixedId base k) = .notFound →
      (generateUniquePublicId remote base).1 = .ok (suffixedId base k)) ∧
    ((∀ j, 1 ≤ j → j ≤ 1000 → remote (suffixedId base j) = .found) →
      (generateUniquePublicId remote base).1
        = .error "Could not generate unique public ID after 1000 attempts") := by
  constructor
  · intro k hk1 hk1000 hfound habsent
    exact genUniqueAux_finds remote base k habsent 999 1 hk1 (by omega)
      (fun j h1 h2 => hfound j h1 h2)
  · intro h
    exact genUniqueAux_exhausted remote base 999 1 (fun j h1 h2 => h j h1 (by omega))

/-- Remote store of the concrete rename scenario: `X`, `X_1`, `X_2`
exist, everything else is absent. -/
def remoteC6 : String → RemoteAnswer :=
  fun s => if s = "X" ∨ s = "X_1" ∨ s = "X_2" then .found else .notFound

/-- Witness for `generateUniquePublicId_smallest_free_suffix`: with
`X`, `X_1`, `X_2` existing and `X_3` absent, resolution yields `X_3`. -/
theorem generateUniquePublicId_smallest_free_suffix_witness :
    (generateUniquePublicId remoteC6 "X").1 = .ok "X_3" :=
  (generateUniquePublicId_smallest_free_suffix remoteC6 "X").1 3 (by decide) (by decide)
    (fun j h1 h2 => by interval_cases j <;> rfl) (by rfl)

/-- The configured `duplicateHandling` policy. -/
inductive DupPolicy where
  | skip
  | overwrite
  | rename
deriving Repr, DecidableEq

/-- Result record of `checkDuplicate` (`DuplicateCheckResult`).  The
`existingResource` payload is opaque to every caller and is not
modelled. -/
structure DuplicateCheckResult where
  isDuplicate : Bool
  recommendedAction : DupPolicy
  newPublicId : Option String := none
  reason : String
deriving Repr, DecidableEq

/-- Environment of the duplicate handler and upload client: the local
`existsSync` answers, the identifier derivation
(`FileValidator.getCloudinaryPath`, itself file-system dependent, hence
an oracle), and the remote store. -/
structure DupEnv where
  fsExists : String → Bool
  cloudinaryPath : String → Option String
  remote : String → RemoteAnswer

/-- `path.replace(/\.[^\/.]+$/, "")`: drop a final `.ext` segment made
of one or more characters none of which is `.` or `/`. -/
def stripLastExt (cs : List Char) : List Char :=
  let tail := cs.reverse.takeWhile (fun c => c ≠ '.' ∧ c ≠ '/')
  match cs.reverse.drop tail.length with
  | '.' :: rest => if tail = [] then cs else rest.reverse
  | _ => cs

example : stripLastExt "diary/2021/1.1.21_1.jpg".toList = "diary/2021/1.1.21_1".toList := by
  decide
example : stripLastExt "diary/2021".toList = "diary/2021".toList := by decide

/-- `cloudinaryPath.replace(/\.[^\/.]+$/, "")`: the public id derived
from a Cloudinary path. -/
def derivedPublicId (cp : String) : String := String.mk (stripLastExt cp.toList)

/-- `checkDuplicate`, returning the result (or the propagated error)
together with the number of remote queries performed.  A missing local
file or an underivable identifier returns "not a duplicate" without
touching the remote store; a 404 means "not a duplicate"; any other
remote error — including one thrown inside `generateUniquePublicId` on
the rename path — is wrapped and propagated. -/
def checkDuplicate (policy : DupPolicy) (env : DupEnv) (filePath : String) :
    Except String DuplicateCheckResult × Nat :=
  if env.fsExists filePath = false then
    (.ok { isDuplicate := false, recommendedAction := policy,
           reason := "File no longer exists: " ++ filePath }, 0)
  else
    match env.cloudinaryPath filePath with
    | none =>
      (.ok { isDuplicate := false, recommendedAction := policy,
             reason := "Could not determine Cloudinary path" }, 0)
    | some cp =>
      let publicId := derivedPublicId cp
      match env.remote publicId with
      | .notFound =>
        (.ok { isDuplicate := false, recommendedAction := policy,
               reason := "File does not exist in Cloudinary" }, 1)
      | .err m =>
        (.error ("Cannot verify if file exists in Cloudinary: " ++ m
          ++ ". Aborting to prevent potential issues."), 1)
      | .found =>
        match policy with
        | .skip =>
          (.ok { isDuplicate := true, recommendedAction := .skip,
                 reason := "File already exists, skipping as per configuration" }, 1)
        | .overwrite =>
          (.ok { isDuplicate := true, recommendedAction := .overwrite,
                 reason := "File already exists, will overwrite as per configuration" }, 1)
        | .rename =>
          match generateUniquePublicId env.remote publicId with
          | (.ok newId, n) =>
            (.ok { isDuplicate := true, recommendedAction := .rename,
                   newPublicId := some newId,
                   reason := "File already exists, will rename to " ++ newId }, 1 + n)
          | (.error m, n) =>
            (.error ("Cannot verify if file exists in Cloudinary: " ++ m
              ++ ". Aborting to prevent potential issues."), 1 + n)

/-- The partition produced by `processDuplicates`. -/
structure DupPartition where
  toUpload : List String
  toSkip : List (String × String)
  toRename : List (String × String)
deriving Repr, DecidableEq

/-- `processDuplicates`: check every path in order and partition them;
the first check that throws aborts the whole run. -/
def processDuplicates (policy : DupPolicy) (env : DupEnv) :
    List String → Except String DupPartition × Nat
  | [] => (.ok ⟨[], [], []⟩, 0)
  | p :: rest =>
    match checkDuplicate policy env p with
    | (.error m, n) => (.error m, n)
    | (.ok r, n) =>
      match processDuplicates policy env rest with
      | (.error m, n2) => (.error m, n + n2)
      | (.ok part, n2) =>
        if r.isDuplicate = false then
          (.ok ⟨p :: part.toUpload, part.toSkip, part.toRename⟩, n + n2)
        else
          match r.recommendedAction with
          | .skip => (.ok ⟨part.toUpload, (p, r.reason) :: part.toSkip, part.toRename⟩, n + n2)
          | .overwrite => (.ok ⟨p :: part.toUpload, part.toSkip, part.toRename⟩, n + n2)
          | .rename =>
            match r.newPublicId with
            | some newId =>
              (.ok ⟨part.toUpload, part.toSkip, (p, newId) :: part.toRename⟩, n + n2)
            | none =>
              (.ok ⟨part.toUpload, (p, "Could not generate unique name") :: part.toSkip,
                    part.toRename⟩, n + n2)

/-- C10: a file that is gone locally by duplicate-check time, or whose
remote identifier cannot be derived, yields `isDuplicate = false` with
zero remote queries, and `processDuplicates` routes it into the
`toUpload` partition. -/
theorem checkDuplicate_missing_file_to_upload (policy : DupPolicy) (env : DupEnv)
    (p : String) (h : env.fsExists p = false ∨ env.cloudinaryPath p = none) :
    (∃ r, checkDuplicate policy env p = (.ok r, 0) ∧ r.isDuplicate = false) ∧
    (∀ paths part n, processDuplicates policy env paths = (.ok part, n) →
      p ∈ paths → p ∈ part.toUpload) := by
  have hck : ∃ r, checkDuplicate policy env p = (.ok r, 0) ∧ r.isDuplicate = false := by
    unfold checkDuplicate
    by_cases hfs : env.fsExists p = false
    · rw [if_pos hfs]
      exact ⟨_, rfl, rfl⟩
    · rw [if_neg hfs]
      have hcp : env.cloudinaryPath p = none := h.resolve_left hfs
      rw [hcp]
      exact ⟨_, rfl, rfl⟩
  refine ⟨hck, ?_⟩
  intro paths
  induction paths with
  | nil => intro part n _ hmem; cases hmem
  | cons q rest ih =>
    intro part n hrun hmem
    obtain ⟨r0, hr0, hdup0⟩ := hck
    unfold processDuplicates at hrun
    rcases List.mem_cons.mp hmem with hqp | hqrest
    · subst hqp
      rw [hr0] at hrun
      cases hrest : processDuplicates policy env rest with
      | mk e2 n2 =>
        rw [hrest] at hrun
        cases e2 with
        | error m => simp at hrun
        | ok part' =>
          simp only [] at hrun
          rw [if_pos hdup0] at hrun
          simp only [Prod.mk.injEq, Except.ok.injEq] at hrun
          rw [← hrun.1]
          exact List.mem_cons_self _ _
    · cases hq : checkDuplicate policy env q with
      | mk e1 n1 =>
        rw [hq] at hrun
        cases e1 with
        | error m => simp at hrun
        | ok r =>
          cases hrest : processDuplicates policy env rest with
          | mk e2 n2 =>
            rw [hrest] at hrun
            cases e2 with
            | error m => simp at hrun
            | ok part' =>
              simp only [] at hrun
              have hmem' : p ∈ part'.toUpload := ih part' n2 (by rw [hrest]) hqrest
              by_cases hdup : r.isDuplicate = false
              · rw [if_pos hdup] at hrun
                simp only [Prod.mk.injEq, Except.ok.injEq] at hrun
                rw [← hrun.1]
                exact List.mem_cons_of_mem _ hmem'
              · rw [if_neg hdup] at hrun
                cases hact : r.recommendedAction with
                | skip =>
                  rw [hact] at hrun
                  simp only [Prod.mk.injEq, Except.ok.injEq] at hrun
                  rw [← hrun.1]
                  exact hmem'
                | overwrite =>
                  rw [hact] at hrun
                  simp only [Prod.mk.injEq, Except.ok.injEq] at hrun
                  rw [← hrun.1]
                  exact List.mem_cons_of_mem _ hmem'
                | rename =>
                  rw [hact] at hrun
                  cases hnp : r.newPublicId with
                  | some newId =>
                    rw [hnp] at hrun
                    simp only [Prod.mk.injEq, Except.ok.injEq] at hrun
                    rw [← hrun.1]
                    exact hmem'
                  | none =>
                    rw [hnp] at hrun
                    simp only [Prod.mk.injEq, Except.ok.injEq] at hrun
                    rw [← hrun.1]
                    exact hmem'

/-- Environment of the concrete deleted-file scenario: the file is gone
locally, the identifier would be derivable, the remote store is
healthy. -/
def envC10 : DupEnv :=
  { fsExists := fun _ => false,
    cloudinaryPath := fun _ => some "diary/2021/1.1.21_1.jpg",
    remote := fun _ => .notFound }

/-- Witness for `checkDuplicate_missing_file_to_upload`: a locally
deleted `1.1.21_1.jpg` is not reported as a duplicate and ends in
`toUpload`. -/
theorem checkDuplicate_missing_file_to_upload_witness :
    (envC10.fsExists "1.1.21_1.jpg" = false ∨ envC10.cloudinaryPath "1.1.21_1.jpg" = none) ∧
    ((∃ r, checkDuplicate .skip envC10 "1.1.21_1.jpg" = (.ok r, 0) ∧ r.isDuplicate = false) ∧
     (∀ paths part n, processDuplicates .skip envC10 paths = (.ok part, n) →
       "1.1.21_1.jpg" ∈ paths → "1.1.21_1.jpg" ∈ part.toUpload)) :=
  ⟨Or.inl rfl,
   checkDuplicate_missing_file_to_upload .skip envC10 "1.1.21_1.jpg" (Or.inl rfl)⟩

/-! ## Upload client existence probe (`UploadService.fileExists`) -/

/-- `fileExists` of the upload service: derive the public id and call
`cloudinary.api.resource` inside a catch-all `try`; the `catch` returns
`false` for every thrown error, 404 or not. -/
def fileExists (env : DupEnv) (filePath : String) : Bool :=
  match env.cloudinaryPath filePath with
  | none => false
  | some cp =>
    match env.remote (derivedPublicId cp) with
    | .found => true
    | .notFound => false
    | .err _ => false

/-- Environment of the C4 counterexample: the identifier is derivable,
but the remote existence query fails with an error other than 404. -/
def envC4 : DupEnv :=
  { fsExists := fun _ => true,
    cloudinaryPath := fun _ => some "diary/2021/1.1.21_1.jpg",
    remote := fun _ => .err "rate limited" }

/-- C4 counterexample: for a path whose identifier is derivable and
whose existence query fails with "rate limited" (not a 404),
`fileExists` returns `false`, not `true` as the claim demands. -/
theorem fileExists_error_counterexample :
    envC4.cloudinaryPath "1.1.21_1.jpg" = some "diary/2021/1.1.21_1.jpg" ∧
    envC4.remote "diary/2021/1.1.21_1" = .err "rate limited" ∧
    RemoteAnswer.err "rate limited" ≠ .notFound ∧
    fileExists envC4 "1.1.21_1.jpg" = false := by
  refine ⟨rfl, rfl, by decide, by decide⟩

/-- C4 (amended): for every path with a derivable identifier, the
probe returns `true` exactly when the existence query succeeds; a 404
and every other error alike yield `false`. -/
theorem fileExists_iff_query_found (env : DupEnv) (p cp : String)
    (h : env.cloudinaryPath p = some cp) :
    fileExists env p = true ↔ env.remote (derivedPublicId cp) = .found := by
  unfold fileExists
  rw [h]
  cases henv : env.remote (derivedPublicId cp) with
  | found => simp [henv]
  | notFound => simp [henv]
  | err m => simp [henv]

/-- Witness for `fileExists_iff_query_found` on a store that answers
"found". -/
theorem fileExists_iff_query_found_witness :
    (DupEnv.mk (fun _ => true) (fun _ => some "diary/2021/1.1.21_1.jpg") (fun _ => .found)).cloudinaryPath
        "1.1.21_1.jpg" = some "diary/2021/1.1.21_1.jpg" ∧
    (fileExists (DupEnv.mk (fun _ => true) (fun _ => some "diary/2021/1.1.21_1.jpg") (fun _ => .found))
        "1.1.21_1.jpg" = true ↔
      (fun _ => RemoteAnswer.found) (derivedPublicId "diary/2021/1.1.21_1.jpg")
        = RemoteAnswer.found) :=
  ⟨rfl, fileExists_iff_query_found
    (DupEnv.mk (fun _ => true) (fun _ => some "diary/2021/1.1.21_1.jpg") (fun _ => .found))
    "1.1.21_1.jpg" "diary/2021/1.1.21_1.jpg" rfl⟩

/-! ## Upload queue (`scripts/services/uploadQueue.ts`)

The queue map is a list of `QueueItem`s in insertion order (a JS `Map`
iterates in insertion order).  The per-batch effects are driven by a
duplicate-check outcome and an upload oracle; remote upload attempts
are counted explicitly.  Batch ids and wall-clock durations are not
modelled — no claim inspects them. -/

/-- `QueueItem.status`. -/
inductive QStatus where
  | pending
  | processing
  | completed
  | failed
  | skipped
deriving Repr, DecidableEq

/-- One entry of the queue map; `addedAt` is the `Date.now()` value at
insertion time. -/
structure QueueItem where
  id : Nat
  filePath : String
  priority : Int
  addedAt : Nat
  attempts : Nat
  lastError : Option String := none
  status : QStatus
deriving Repr, DecidableEq

/-- `UploadResult` of the upload service. -/
structure UploadResult where
  success : Bool
  filePath : String
  cloudinaryUrl : Option String := none
  publicId : Option String := none
  error : Option String := none
  retryCount : Nat
  uploadTime : Nat := 0
deriving Repr, DecidableEq

/-- `BatchResult` (without the unmodelled `batchId` and `duration`). -/
structure BatchResult where
  totalFiles : Nat
  successful : Nat
  failed : Nat
  skipped : Nat
  results : List UploadResult
  errors : List String
deriving Repr, DecidableEq

/-- Body of `UploadService.uploadFile` with its recursive retry.  The
outcome oracle gives each attempt's result by retry count (`none` =
the Cloudinary upload resolves, `some msg` = it throws `msg`; config,
validation and transport errors all land in the same catch).  The
source guard `retryCount < retryAttempts` is carried as
`fuel = retryAttempts - retryCount`; the backoff sleep spends time
only.  The second component counts the attempts performed. -/
def uploadFileAux (outcome : Nat → Option String) (filePath : String) :
    Nat → Nat → UploadResult × Nat
  | retryCount, fuel =>
    match outcome retryCount, fuel with
    | none, _ => ({ success := true, filePath := filePath, retryCount := retryCount }, 1)
    | some msg, 0 =>
      ({ success := false, filePath := filePath, error := some msg,
         retryCount := retryCount }, 1)
    | some _, fuel + 1 =>
      let r := uploadFileAux outcome filePath (retryCount + 1) fuel
      (r.1, r.2 + 1)

/-- `uploadFile(filePath)` — the public entry starts at retry count 0. -/
def uploadFile (retryAttempts : Nat) (outcome : Nat → Option String) (filePath : String) :
    UploadResult × Nat :=
  uploadFileAux outcome filePath 0 retryAttempts

/-- Mutation of the first queue item matching a predicate — the JS
`batchItems.find(...)` returns a shared reference that the queue then
mutates in place. -/
def updateFirst (p : QueueItem → Bool) (f : QueueItem → QueueItem) :
    List QueueItem → List QueueItem
  | [] => []
  | it :: rest => if p it then f it :: rest else it :: updateFirst p f rest

/-- Skip-handling loop of `processBatch` (also reused verbatim by the
rename-handling loop, which performs the same item updates): each
entry whose path matches a batch item marks the first such item
`skipped` and contributes a `success = true` result with zero retries.
The file-marker rename it also triggers only touches the local file
system, outside the modelled state. -/
def skipPhase (entries : List (String × String)) (items : List QueueItem) :
    List QueueItem × List UploadResult :=
  match entries with
  | [] => (items, [])
  | (path, _) :: rest =>
    if items.any (fun i => i.filePath == path) then
      let items' := updateFirst (fun i => i.filePath == path)
        (fun i => { i with status := .skipped }) items
      let out := skipPhase rest items'
      (out.1, { success := true, filePath := path, retryCount := 0 } :: out.2)
    else
      skipPhase rest items

/-- Upload loop of `processBatch`: paths without a matching item are
skipped without an upload call; on success the item is completed; on
failure `attempts` is bumped and the item goes terminal `failed` once
`attempts ≥ retryAttempts`, else back to `pending` for a later batch.
An error line is recorded only for terminal failures.  Returns the
updated items, the upload results, the error lines, and the total
remote attempts performed. -/
def uploadPhase (retryAttempts : Nat) (upload : String → UploadResult × Nat)
    (toUpload : List String) (items : List QueueItem) :
    List QueueItem × List UploadResult × List String × Nat :=
  match toUpload with
  | [] => (items, [], [], 0)
  | path :: rest =>
    match items.find? (fun i => i.filePath == path) with
    | none => uploadPhase retryAttempts upload rest items
    | some it =>
      let r := upload path
      if r.1.success then
        let items' := updateFirst (fun i => i.filePath == path)
          (fun i => { i with status := .completed }) items
        let out := uploadPhase retryAttempts upload rest items'
        (out.1, r.1 :: out.2.1, out.2.2.1, r.2 + out.2.2.2)
      else
        let items' := updateFirst (fun i => i.filePath == path)
          (fun i => { i with
            attempts := i.attempts + 1, lastError := r.1.error,
            status := if i.attempts + 1 ≥ retryAttempts then .failed else .pending })
          items
        let out := uploadPhase retryAttempts upload rest items'
        if it.attempts + 1 ≥ retryAttempts then
          (out.1, r.1 :: out.2.1,
           (String.mk (basenameChars path.toList) ++ ": " ++ r.1.error.getD "") :: out.2.2.1,
           r.2 + out.2.2.2)
        else
          (out.1, r.1 :: out.2.1, out.2.2.1, r.2 + out.2.2.2)

/-- `processBatch`: empty batches return the empty result before any
check; otherwise mark the batch `processing`, run the grouped duplicate
check (a throw fails the whole batch), then the skip, upload and
rename loops, and aggregate the `BatchResult` exactly as the source
does (`successful` counts successes among all results, `failed` counts
failures among upload results, `skipped` counts skip/rename results).
The third component is the number of remote upload attempts. -/
def processBatch (retryAttempts : Nat) (dupCheck : Except String DupPartition)
    (upload : String → UploadResult × Nat) (items0 : List QueueItem) :
    List QueueItem × BatchResult × Nat :=
  if items0 = [] then
    ([], { totalFiles := 0, successful := 0, failed := 0, skipped := 0,
           results := [], errors := [] }, 0)
  else
    let items := items0.map (fun it => { it with status := QStatus.processing })
    match dupCheck with
    | .error msg =>
      (items.map (fun it => { it with status := QStatus.failed, lastError := some msg }),
       { totalFiles := items0.length, successful := 0, failed := items0.length,
         skipped := 0, results := [], errors := [msg] }, 0)
    | .ok part =>
      let s1 := skipPhase part.toSkip items
      let u := uploadPhase retryAttempts upload part.toUpload s1.1
      let s2 := skipPhase part.toRename u.1
      let skippedResults := s1.2 ++ s2.2
      let allResults := u.2.1 ++ skippedResults
      (s2.1,
       { totalFiles := items0.length,
         successful := (allResults.filter (·.success)).length,
         failed := (u.2.1.filter (fun x => !x.success)).length,
         skipped := skippedResults.length,
         results := allResults,
         errors := u.2.2.1 }, u.2.2.2)

/-- C2: when the grouped duplicate check throws, every batch item is
marked `failed` carrying the propagated message, the batch result
reports `failed = totalFiles` with `successful = skipped = 0`, an
empty results list and exactly that error, and zero upload attempts
are made. -/
theorem processBatch_dupcheck_failure (retryAttempts : Nat) (msg : String)
    (upload : String → UploadResult × Nat) (items : List QueueItem)
    (hne : items ≠ []) :
    processBatch retryAttempts (.error msg) upload items =
      (items.map (fun it => { it with status := QStatus.failed, lastError := some msg }),
       { totalFiles := items.length, successful := 0, failed := items.length,
         skipped := 0, results := [], errors := [msg] }, 0) := by
  unfold processBatch
  rw [if_neg hne]
  simp only [List.map_map, List.length_map]
  rfl

/-- The three-item batch of the spec's end-to-end scenario 3. -/
def itemsC2 : List QueueItem :=
  [⟨1, "1.1.21_1.jpg", 0, 10, 0, none, .processing⟩,
   ⟨2, "1.2.21_1.jpg", 0, 11, 0, none, .processing⟩,
   ⟨3, "1.3.21_1.jpg", 0, 12, 0, none, .processing⟩]

/-- An upload oracle that would succeed instantly — scenario 3 requires
that it is never consulted. -/
def uploadC2 : String → UploadResult × Nat :=
  fun p => ({ success := true, filePath := p, retryCount := 0 }, 1)

/-- Witness for `processBatch_dupcheck_failure` on a three-item batch,
matching the spec's end-to-end scenario 3. -/
theorem processBatch_dupcheck_failure_witness :
    itemsC2 ≠ [] ∧
    processBatch 3 (.error "Cannot verify if file exists in Cloudinary: boom")
        uploadC2 itemsC2 =
      (itemsC2.map (fun it => { it with
          status := QStatus.failed,
          lastError := some "Cannot verify if file exists in Cloudinary: boom" }),
       { totalFiles := itemsC2.length, successful := 0, failed := itemsC2.length,
         skipped := 0, results := [],
         errors := ["Cannot verify if file exists in Cloudinary: boom"] }, 0) :=
  ⟨by decide,
   processBatch_dupcheck_failure 3 "Cannot verify if file exists in Cloudinary: boom"
     uploadC2 itemsC2 (by decide)⟩

lemma map_filePath_updateFirst (p : QueueItem → Bool) (f : QueueItem → QueueItem)
    (l : List QueueItem) (hf : ∀ it, (f it).filePath = it.filePath) :
    (updateFirst p f l).map (·.filePath) = l.map (·.filePath) := by
  induction l with
  | nil => rfl
  | cons a t ih =>
    unfold updateFirst
    by_cases hp : p a = true
    · rw [if_pos hp]
      simp only [List.map_cons, hf a]
    · rw [if_neg hp]
      simp only [List.map_cons, ih]

lemma skipPhase_spec (entries : List (String × String)) (items : List QueueItem)
    (h : ∀ e ∈ entries, e.1 ∈ items.map (·.filePath)) :
    (skipPhase entries items).1.map (·.filePath) = items.map (·.filePath) ∧
    (skipPhase entries items).2.length = entries.length ∧
    ∀ x ∈ (skipPhase entries items).2, x.success = true := by
  induction entries generalizing items with
  | nil => exact ⟨rfl, rfl, fun x hx => absurd hx (List.not_mem_nil x)⟩
  | cons e rest ih =>
    obtain ⟨path, reason⟩ := e
    have hmem : path ∈ items.map (·.filePath) := h (path, reason) (List.mem_cons_self _ _)
    have hany : items.any (fun i => i.filePath == path) = true := by
      rw [List.any_eq_true]
      obtain ⟨it, hit, hfp⟩ := List.mem_map.mp hmem
      exact ⟨it, hit, by rw [beq_iff_eq]; exact hfp⟩
    have hpres : (updateFirst (fun i => i.filePath == path)
        (fun i => { i with status := QStatus.skipped }) items).map (·.filePath)
        = items.map (·.filePath) :=
      map_filePath_updateFirst _ _ _ (fun _ => rfl)
    have hrest : ∀ e ∈ rest, e.1 ∈ (updateFirst (fun i => i.filePath == path)
        (fun i => { i with status := QStatus.skipped }) items).map (·.filePath) := by
      intro e he
      rw [hpres]
      exact h e (List.mem_cons_of_mem _ he)
    obtain ⟨ih1, ih2, ih3⟩ := ih _ hrest
    unfold skipPhase
    rw [if_pos hany]
    refine ⟨by rw [ih1, hpres], by simp [ih2], ?_⟩
    intro x hx
    rcases List.mem_cons.mp hx with hx | hx
    · rw [hx]
    · exact ih3 x hx

lemma uploadPhase_spec (retryAttempts : Nat) (upload : String → UploadResult × Nat)
    (toUpload : List String) (items : List QueueItem)
    (h : ∀ p ∈ toUpload, p ∈ items.map (·.filePath)) :
    (uploadPhase retryAttempts upload toUpload items).1.map (·.filePath)
      = items.map (·.filePath) ∧
    (uploadPhase retryAttempts upload toUpload items).2.1.length = toUpload.length := by
  induction toUpload generalizing items with
  | nil => exact ⟨rfl, rfl⟩
  | cons path rest ih =>
    have hmem : path ∈ items.map (·.filePath) := h path (List.mem_cons_self _ _)
    have hfind : ∃ it, items.find? (fun i => i.filePath == path) = some it := by
      obtain ⟨it0, hit0, hfp0⟩ := List.mem_map.mp hmem
      cases hf : items.find? (fun i => i.filePath == path) with
      | some it => exact ⟨it, rfl⟩
      | none =>
        have := List.find?_eq_none.mp hf it0 hit0
        rw [beq_iff_eq] at this
        exact absurd hfp0 this
    obtain ⟨it, hit⟩ := hfind
    unfold uploadPhase
    rw [hit]
    simp only []
    by_cases hsucc : (upload path).1.success = true
    · rw [if_pos hsucc]
      have hpres : (updateFirst (fun i => i.filePath == path)
          (fun i => { i with status := QStatus.completed }) items).map (·.filePath)
          = items.map (·.filePath) :=
        map_filePath_updateFirst _ _ _ (fun _ => rfl)
      have hrest : ∀ p ∈ rest, p ∈ (updateFirst (fun i => i.filePath == path)
          (fun i => { i with status := QStatus.completed }) items).map (·.filePath) := by
        intro q hq; rw [hpres]; exact h q (List.mem_cons_of_mem _ hq)
      obtain ⟨ih1, ih2⟩ := ih _ hrest
      exact ⟨by rw [ih1, hpres], by simp [ih2]⟩
    · rw [if_neg hsucc]
      have hpres : (updateFirst (fun i => i.filePath == path)
          (fun i => { i with
            attempts := i.attempts + 1, lastError := (upload path).1.error,
            status := if i.attempts + 1 ≥ retryAttempts then QStatus.failed
              else QStatus.pending }) items).map (·.filePath)
          = items.map (·.filePath) :=
        map_filePath_updateFirst _ _ _ (fun _ => rfl)
      have hrest : ∀ p ∈ rest, p ∈ (updateFirst (fun i => i.filePath == path)
          (fun i => { i with
            attempts := i.attempts + 1, lastError := (upload path).1.error,
            status := if i.attempts + 1 ≥ retryAttempts then QStatus.failed
              else QStatus.pending }) items).map (·.filePath) := by
        intro q hq; rw [hpres]; exact h q (List.mem_cons_of_mem _ hq)
      obtain ⟨ih1, ih2⟩ := ih _ hrest
      by_cases hterm : it.attempts + 1 ≥ retryAttempts
      · rw [if_pos hterm]
        exact ⟨by rw [ih1, hpres], by simp [ih2]⟩
      · rw [if_neg hterm]
        exact ⟨by rw [ih1, hpres], by simp [ih2]⟩

lemma length_filter_add_length_filter_not {α : Type} (p : α → Bool) (l : List α) :
    (l.filter p).length + (l.filter (fun x => !p x)).length = l.length := by
  induction l with
  | nil => rfl
  | cons a t ih =>
    by_cases hp : p a = true
    · simp [List.filter_cons, hp, ← ih]
      omega
    · simp [List.filter_cons, hp, ← ih]
      omega

/-- C9: in a batch whose grouped duplicate check succeeds, the batch
result's `results` splits into the upload results followed by the
skip/rename results, every skip/rename result has `success = true`, so
`successful` counts skipped files as successes — it equals the number
of succeeded uploads plus `skipped` — and `successful + failed`
equals `totalFiles`. -/
theorem processBatch_successful_counts_skipped (retryAttempts : Nat) (part : DupPartition)
    (upload : String → UploadResult × Nat) (items : List QueueItem)
    (hne : items ≠ [])
    (hperm : (part.toUpload ++ part.toSkip.map Prod.fst ++ part.toRename.map Prod.fst).Perm
      (items.map (·.filePath))) :
    ∃ uploadRes skippedRes,
      (processBatch retryAttempts (.ok part) upload items).2.1.results
        = uploadRes ++ skippedRes ∧
      (∀ x ∈ skippedRes, x.success = true) ∧
      (processBatch retryAttempts (.ok part) upload items).2.1.skipped
        = skippedRes.length ∧
      (processBatch retryAttempts (.ok part) upload items).2.1.successful
        = (uploadRes.filter (·.success)).length + skippedRes.length ∧
      (processBatch retryAttempts (.ok part) upload items).2.1.failed
        = (uploadRes.filter (fun x => !x.success)).length ∧
      (processBatch retryAttempts (.ok part) upload items).2.1.successful
          + (processBatch retryAttempts (.ok part) upload items).2.1.failed
        = (processBatch retryAttempts (.ok part) upload items).2.1.totalFiles := by
  have hmemOf : ∀ q, q ∈ part.toUpload ++ part.toSkip.map Prod.fst
      ++ part.toRename.map Prod.fst → q ∈ items.map (·.filePath) :=
    fun q hq => hperm.mem_iff.mp hq
  have hitems1 : (items.map (fun it => { it with status := QStatus.processing })).map
      (·.filePath) = items.map (·.filePath) := by
    rw [List.map_map]; rfl
  have hskipmem : ∀ e ∈ part.toSkip,
      e.1 ∈ (items.map (fun it => { it with status := QStatus.processing })).map
        (·.filePath) := by
    intro e he
    rw [hitems1]
    exact hmemOf e.1 (by
      refine List.mem_append.mpr (Or.inl ?_)
      exact List.mem_append.mpr (Or.inr (List.mem_map.mpr ⟨e, he, rfl⟩)))
  obtain ⟨hs1a, hs1b, hs1c⟩ := skipPhase_spec part.toSkip _ hskipmem
  have hupmem : ∀ p ∈ part.toUpload,
      p ∈ (skipPhase part.toSkip
        (items.map (fun it => { it with status := QStatus.processing }))).1.map
        (·.filePath) := by
    intro p hp
    rw [hs1a, hitems1]
    exact hmemOf p (List.mem_append.mpr (Or.inl (List.mem_append.mpr (Or.inl hp))))
  obtain ⟨hua, hub⟩ := uploadPhase_spec retryAttempts upload part.toUpload _ hupmem
  have hrenmem : ∀ e ∈ part.toRename,
      e.1 ∈ (uploadPhase retryAttempts upload part.toUpload
        (skipPhase part.toSkip
          (items.map (fun it => { it with status := QStatus.processing }))).1).1.map
        (·.filePath) := by
    intro e he
    rw [hua, hs1a, hitems1]
    exact hmemOf e.1 (List.mem_append.mpr (Or.inr (List.mem_map.mpr ⟨e, he, rfl⟩)))
  obtain ⟨hs2a, hs2b, hs2c⟩ := skipPhase_spec part.toRename _ hrenmem
  have hlen : part.toUpload.length + (part.toSkip.length + part.toRename.length)
      = items.length := by
    have := hperm.length_eq
    simp only [List.length_append, List.length_map] at this
    rw [← this]
    omega
  unfold processBatch
  rw [if_neg hne]
  simp only []
  refine ⟨_, _, rfl, ?_, rfl, ?_, rfl, ?_⟩
  · intro x hx
    rcases List.mem_append.mp hx with hx | hx
    · exact hs1c x hx
    · exact hs2c x hx
  · rw [List.filter_append]
    rw [List.filter_append]
    have e1 : (skipPhase part.toSkip
        (items.map (fun it => { it with status := QStatus.processing }))).2.filter
        (·.success) = (skipPhase part.toSkip
        (items.map (fun it => { it with status := QStatus.processing }))).2 :=
      List.filter_eq_self.mpr (fun a ha => hs1c a ha)
    have e2 : (skipPhase part.toRename
        (uploadPhase retryAttempts upload part.toUpload
          (skipPhase part.toSkip
            (items.map (fun it => { it with status := QStatus.processing }))).1).1).2.filter
        (·.success) = (skipPhase part.toRename
        (uploadPhase retryAttempts upload part.toUpload
          (skipPhase part.toSkip
            (items.map (fun it => { it with status := QStatus.processing }))).1).1).2 :=
      List.filter_eq_self.mpr (fun a ha => hs2c a ha)
    rw [e1, e2, List.length_append]
  · rw [List.filter_append]
    have e1 : ((skipPhase part.toSkip
        (items.map (fun it => { it with status := QStatus.processing }))).2 ++
        (skipPhase part.toRename
          (uploadPhase retryAttempts upload part.toUpload
            (skipPhase part.toSkip
              (items.map (fun it => { it with status := QStatus.processing }))).1).1).2).filter
        (·.success) = (skipPhase part.toSkip
        (items.map (fun it => { it with status := QStatus.processing }))).2 ++
        (skipPhase part.toRename
          (uploadPhase retryAttempts upload part.toUpload
            (skipPhase part.toSkip
              (items.map (fun it => { it with status := QStatus.processing }))).1).1).2 :=
      List.filter_eq_self.mpr (fun a ha => by
        rcases List.mem_append.mp ha with ha | ha
        · exact hs1c a ha
        · exact hs2c a ha)
    rw [e1]
    simp only [List.length_append]
    have hcancel := length_filter_add_length_filter_not (·.success)
      (uploadPhase retryAttempts upload part.toUpload
        (skipPhase part.toSkip
          (items.map (fun it => { it with status := QStatus.processing }))).1).2.1
    omega

/-- Queue items of the C9 witness batch. -/
def itemsC9 : List QueueItem :=
  [⟨1, "1.1.21_1.jpg", 0, 10, 0, none, .pending⟩,
   ⟨2, "1.2.21_1.jpg", 0, 11, 0, none, .pending⟩,
   ⟨3, "1.3.21_1.jpg", 0, 12, 0, none, .pending⟩]

/-- Partition of the C9 witness batch: one upload, one skip, one
rename. -/
def partC9 : DupPartition :=
  { toUpload := ["1.1.21_1.jpg"],
    toSkip := [("1.2.21_1.jpg", "File already exists, skipping as per configuration")],
    toRename := [("1.3.21_1.jpg", "diary/2021/1.3.21_1_1")] }

/-- Witness for `processBatch_successful_counts_skipped` with a
failing upload, a skip and a rename: `successful = 2` counts the two
skipped files, `failed = 1`, and `2 + 1 = 3 = totalFiles`. -/
theorem processBatch_successful_counts_skipped_witness :
    itemsC9 ≠ [] ∧
    (partC9.toUpload ++ partC9.toSkip.map Prod.fst ++ partC9.toRename.map Prod.fst).Perm
      (itemsC9.map (·.filePath)) ∧
    (∃ uploadRes skippedRes,
      (processBatch 3 (.ok partC9)
        (fun p => ({ success := false, filePath := p, error := some "network down",
                     retryCount := 3 }, 4)) itemsC9).2.1.results
        = uploadRes ++ skippedRes ∧
      (∀ x ∈ skippedRes, x.success = true) ∧
      (processBatch 3 (.ok partC9)
        (fun p => ({ success := false, filePath := p, error := some "network down",
                     retryCount := 3 }, 4)) itemsC9).2.1.skipped = skippedRes.length ∧
      (processBatch 3 (.ok partC9)
        (fun p => ({ success := false, filePath := p, error := some "network down",
                     retryCount := 3 }, 4)) itemsC9).2.1.successful
        = (uploadRes.filter (·.success)).length + skippedRes.length ∧
      (processBatch 3 (.ok partC9)
        (fun p => ({ success := false, filePath := p, error := some "network down",
                     retryCount := 3 }, 4)) itemsC9).2.1.failed
        = (uploadRes.filter (fun x => !x.success)).length ∧
      (processBatch 3 (.ok partC9)
        (fun p => ({ success := false, filePath := p, error := some "network down",
                     retryCount := 3 }, 4)) itemsC9).2.1.successful
          + (processBatch 3 (.ok partC9)
        (fun p => ({ success := false, filePath := p, error := some "network down",
                     retryCount := 3 }, 4)) itemsC9).2.1.failed
        = (processBatch 3 (.ok partC9)
        (fun p => ({ success := false, filePath := p, error := some "network down",
                     retryCount := 3 }, 4)) itemsC9).2.1.totalFiles) :=
  ⟨by decide, by decide,
   processBatch_successful_counts_skipped 3 partC9
     (fun p => ({ success := false, filePath := p, error := some "network down",
                  retryCount := 3 }, 4)) itemsC9 (by decide) (by decide)⟩

/-! ## Batch selection (`UploadQueue.getNextBatch`) -/

/-- "`a` sorts no later than `b`" under the comparator of
`getNextBatch` (`b.priority - a.priority` when priorities differ, else
`a.addedAt - b.addedAt`): the comparator value is `≤ 0`. -/
def queueBefore (a b : QueueItem) : Bool :=
  if a.priority ≠ b.priority then b.priority < a.priority else a.addedAt ≤ b.addedAt

/-- Insert `a` in front of the first element it sorts no later than.
Inserting each earlier element into the sorted later elements realizes
a stable sort — exactly the contract of JS `Array.prototype.sort`,
stable since ES2019. -/
def stableInsert (a : QueueItem) : List QueueItem → List QueueItem
  | [] => [a]
  | b :: l => if queueBefore a b then a :: b :: l else b :: stableInsert a l

/-- Stable sort by the `getNextBatch` comparator. -/
def stableSort : List QueueItem → List QueueItem
  | [] => []
  | a :: l => stableInsert a (stableSort l)

/-- `getNextBatch`: the pending items, sorted by priority descending
then `addedAt` ascending (stable), truncated to `batchSize`. -/
def getNextBatch (batchSize : Nat) (queue : List QueueItem) : List QueueItem :=
  (stableSort (queue.filter (fun i => i.status == QStatus.pending))).take batchSize

lemma stableInsert_perm (a : QueueItem) (l : List QueueItem) :
    (stableInsert a l).Perm (a :: l) := by
  induction l with
  | nil => exact List.Perm.refl _
  | cons b t ih =>
    unfold stableInsert
    by_cases h : queueBefore a b = true
    · rw [if_pos h]
    · rw [if_neg h]
      exact List.Perm.trans (List.Perm.cons b ih) (List.Perm.swap a b t)

lemma stableSort_perm (l : List QueueItem) : (stableSort l).Perm l := by
  induction l with
  | nil => exact List.Perm.refl _
  | cons a t ih =>
    unfold stableSort
    exact List.Perm.trans (stableInsert_perm a (stableSort t)) (List.Perm.cons a ih)

lemma queueBefore_total (a b : QueueItem) :
    queueBefore a b = true ∨ queueBefore b a = true := by
  unfold queueBefore
  by_cases h : a.priority = b.priority
  · rw [if_neg (by rw [h]; exact fun hc => hc rfl),
        if_neg (by rw [h]; exact fun hc => hc rfl)]
    simp only [decide_eq_true_eq]
    omega
  · rw [if_pos h, if_pos (fun hc => h hc.symm)]
    simp only [decide_eq_true_eq]
    omega

lemma queueBefore_trans (a b c : QueueItem)
    (hab : queueBefore a b = true) (hbc : queueBefore b c = true) :
    queueBefore a c = true := by
  unfold queueBefore at hab hbc ⊢
  by_cases h1 : a.priority = b.priority
  · by_cases h2 : b.priority = c.priority
    · rw [if_neg (fun hc => hc h1)] at hab
      rw [if_neg (fun hc => hc h2)] at hbc
      rw [if_neg (fun hc : a.priority ≠ c.priority => hc (h1.trans h2))]
      simp only [decide_eq_true_eq] at hab hbc ⊢
      omega
    · rw [if_neg (fun hc => hc h1)] at hab
      rw [if_pos h2] at hbc
      rw [if_pos (show a.priority ≠ c.priority from fun hc => h2 (h1.symm.trans hc))]
      simp only [decide_eq_true_eq] at hbc ⊢
      omega
  · by_cases h2 : b.priority = c.priority
    · rw [if_pos h1] at hab
      rw [if_pos (show a.priority ≠ c.priority from fun hc => h1 (hc.trans h2.symm))]
      simp only [decide_eq_true_eq] at hab ⊢
      omega
    · rw [if_pos h1] at hab
      rw [if_pos h2] at hbc
      simp only [decide_eq_true_eq] at hab hbc
      rw [if_pos (show a.priority ≠ c.priority from by omega)]
      simp only [decide_eq_true_eq]
      omega

lemma mem_stableInsert (x a : QueueItem) (l : List QueueItem) :
    x ∈ stableInsert a l ↔ x = a ∨ x ∈ l := by
  rw [(stableInsert_perm a l).mem_iff, List.mem_cons]

lemma pairwise_stableInsert (a : QueueItem) (l : List QueueItem)
    (hl : l.Pairwise (fun x y => queueBefore x y = true)) :
    (stableInsert a l).Pairwise (fun x y => queueBefore x y = true) := by
  induction l with
  | nil => exact List.pairwise_singleton _ a
  | cons b t ih =>
    unfold stableInsert
    rw [List.pairwise_cons] at hl
    by_cases h : queueBefore a b = true
    · rw [if_pos h]
      rw [List.pairwise_cons]
      refine ⟨?_, List.pairwise_cons.mpr hl⟩
      intro x hx
      rcases List.mem_cons.mp hx with hx | hx
      · rw [hx]; exact h
      · exact queueBefore_trans a b x h (hl.1 x hx)
    · rw [if_neg h]
      rw [List.pairwise_cons]
      refine ⟨?_, ih hl.2⟩
      intro x hx
      rcases (mem_stableInsert x a t).mp hx with hx | hx
      · rw [hx]
        exact (queueBefore_total a b).resolve_left h
      · exact hl.1 x hx

lemma pairwise_stableSort (l : List QueueItem) :
    (stableSort l).Pairwise (fun x y => queueBefore x y = true) := by
  induction l with
  | nil => exact List.Pairwise.nil
  | cons a t ih => exact pairwise_stableInsert a (stableSort t) ih

lemma filter_stableInsert (q : QueueItem → Bool) (a : QueueItem) (l : List QueueItem)
    (h : ∀ x ∈ l, q x = true → q a = true → queueBefore a x = true) :
    (stableInsert a l).filter q = if q a then a :: l.filter q else l.filter q := by
  induction l with
  | nil =>
    cases hq : q a <;> simp [stableInsert, List.filter_cons, hq]
  | cons b t ih =>
    unfold stableInsert
    by_cases hab : queueBefore a b = true
    · rw [if_pos hab]
      cases hq : q a <;> simp [List.filter_cons, hq]
    · rw [if_neg hab]
      have ht : ∀ x ∈ t, q x = true → q a = true → queueBefore a x = true :=
        fun x hx => h x (List.mem_cons_of_mem b hx)
      cases hqa : q a with
      | false => simp [List.filter_cons, ih ht, hqa]
      | true =>
        have hqb : q b = false := by
          cases hqb : q b with
          | false => rfl
          | true =>
            exact absurd (h b (List.mem_cons_self b t) hqb hqa) hab
        simp [List.filter_cons, ih ht, hqa, hqb]

lemma filter_priority_stableSort (p : Int) (l : List QueueItem)
    (hmono : l.Pairwise (fun x y => x.addedAt ≤ y.addedAt)) :
    (stableSort l).filter (fun i => i.priority == p)
      = l.filter (fun i => i.priority == p) := by
  induction l with
  | nil => rfl
  | cons a t ih =>
    rw [List.pairwise_cons] at hmono
    unfold stableSort
    have hcond : ∀ x ∈ stableSort t, (x.priority == p) = true →
        (a.priority == p) = true → queueBefore a x = true := by
      intro x hx hxp hap
      have hxmem : x ∈ t := (stableSort_perm t).mem_iff.mp hx
      have hpp : a.priority = x.priority := by
        rw [beq_iff_eq] at hxp hap
        rw [hap, hxp]
      unfold queueBefore
      rw [if_neg (fun hc => hc hpp)]
      simp only [decide_eq_true_eq]
      exact hmono.1 x hxmem
    rw [filter_stableInsert _ a _ hcond, ih hmono.2, List.filter_cons]

/-- C5: `getNextBatch` selects exactly the first
`min(batchSize, #pending)` pending items under "priority descending,
then insertion order" — the selected list is the `batchSize`-prefix of
a sorted arrangement of the pending items that is a permutation of
them, is pairwise ordered by priority-then-addedAt, and lists the
items of every fixed priority tier in unchanged queue (insertion)
order; `addedAt` being non-decreasing along the queue is what the
runtime guarantees, since ids are assigned at `Date.now()` times. -/
theorem getNextBatch_priority_then_fifo (batchSize : Nat) (queue : List QueueItem)
    (hmono : queue.Pairwise (fun a b => a.addedAt ≤ b.addedAt)) :
    getNextBatch batchSize queue
      = (stableSort (queue.filter (fun i => i.status == QStatus.pending))).take batchSize ∧
    (getNextBatch batchSize queue).length
      = min batchSize (queue.filter (fun i => i.status == QStatus.pending)).length ∧
    (stableSort (queue.filter (fun i => i.status == QStatus.pending))).Perm
      (queue.filter (fun i => i.status == QStatus.pending)) ∧
    (stableSort (queue.filter (fun i => i.status == QStatus.pending))).Pairwise
      (fun a b => b.priority < a.priority ∨
        (a.priority = b.priority ∧ a.addedAt ≤ b.addedAt)) ∧
    (∀ p : Int, (stableSort (queue.filter (fun i => i.status == QStatus.pending))).filter
        (fun i => i.priority == p)
      = (queue.filter (fun i => i.status == QStatus.pending)).filter
        (fun i => i.priority == p)) := by
  have hmonoP : (queue.filter (fun i => i.status == QStatus.pending)).Pairwise
      (fun a b => a.addedAt ≤ b.addedAt) :=
    hmono.sublist (List.filter_sublist queue)
  refine ⟨rfl, ?_, stableSort_perm _, ?_, fun p => filter_priority_stableSort p _ hmonoP⟩
  · unfold getNextBatch
    rw [List.length_take, (stableSort_perm _).length_eq]
  · have hpw := pairwise_stableSort (queue.filter (fun i => i.status == QStatus.pending))
    refine hpw.imp ?_
    intro a b hab
    unfold queueBefore at hab
    by_cases h : a.priority = b.priority
    · rw [if_neg (fun hc => hc h)] at hab
      simp only [decide_eq_true_eq] at hab
      exact Or.inr ⟨h, hab⟩
    · rw [if_pos h] at hab
      simp only [decide_eq_true_eq] at hab
      exact Or.inl hab

/-- Queue of the C5 witness: two priority-0 items added first, then a
priority-5 item — timestamps non-decreasing. -/
def queueC5 : List QueueItem :=
  [⟨1, "a.jpg", 0, 10, 0, none, .pending⟩,
   ⟨2, "b.jpg", 0, 11, 0, none, .pending⟩,
   ⟨3, "c.jpg", 5, 12, 0, none, .pending⟩]

example : getNextBatch 5 queueC5
    = [⟨3, "c.jpg", 5, 12, 0, none, .pending⟩,
       ⟨1, "a.jpg", 0, 10, 0, none, .pending⟩,
       ⟨2, "b.jpg", 0, 11, 0, none, .pending⟩] := by decide

example : getNextBatch 2 queueC5
    = [⟨3, "c.jpg", 5, 12, 0, none, .pending⟩,
       ⟨1, "a.jpg", 0, 10, 0, none, .pending⟩] := by decide

/-- Witness for `getNextBatch_priority_then_fifo` at `queueC5`: the
later-added priority-5 item is selected first, the equal-priority items
drain in insertion order. -/
theorem getNextBatch_priority_then_fifo_witness :
    queueC5.Pairwise (fun a b => a.addedAt ≤ b.addedAt) ∧
    (getNextBatch 2 queueC5
      = (stableSort (queueC5.filter (fun i => i.status == QStatus.pending))).take 2 ∧
    (getNextBatch 2 queueC5).length
      = min 2 (queueC5.filter (fun i => i.status == QStatus.pending)).length ∧
    (stableSort (queueC5.filter (fun i => i.status == QStatus.pending))).Perm
      (queueC5.filter (fun i => i.status == QStatus.pending)) ∧
    (stableSort (queueC5.filter (fun i => i.status == QStatus.pending))).Pairwise
      (fun a b => b.priority < a.priority ∨
        (a.priority = b.priority ∧ a.addedAt ≤ b.addedAt)) ∧
    (∀ p : Int, (stableSort (queueC5.filter (fun i => i.status == QStatus.pending))).filter
        (fun i => i.priority == p)
      = (queueC5.filter (fun i => i.status == QStatus.pending)).filter
        (fun i => i.priority == p))) :=
  ⟨by decide, getNextBatch_priority_then_fifo 2 queueC5 (by decide)⟩

/-! ## Drain loop (`UploadQueue.startProcessing`, one-shot mode) -/

/-- Write the batch's mutated items back into the queue by id — batch
items are shared object references in the source, so their mutation is
visible in the queue map. -/
def mergeBack (queue batch : List QueueItem) : List QueueItem :=
  queue.map (fun it =>
    match batch.find? (fun b => b.id == it.id) with
    | some b => b
    | none => it)

/-- One-shot drain loop of `startProcessing(false)`: process a batch
while pending items remain.  `fuel` bounds the iterations (the source
loop is unbounded); the inter-batch sleep spends time only.  Returns
the final queue and the total number of remote upload attempts. -/
def runQueue (retryAttempts batchSize : Nat)
    (dupCheck : List String → Except String DupPartition)
    (upload : String → UploadResult × Nat) :
    Nat → List QueueItem → List QueueItem × Nat
  | 0, queue => (queue, 0)
  | fuel + 1, queue =>
    if queue.any (fun i => i.status == QStatus.pending) then
      let batch := getNextBatch batchSize queue
      let out := processBatch retryAttempts (dupCheck (batch.map (·.filePath))) upload batch
      let queue2 := mergeBack queue out.1
      let rest := runQueue retryAttempts batchSize dupCheck upload fuel queue2
      (rest.1, out.2.2 + rest.2)
    else (queue, 0)

lemma uploadFileAux_fail (msg p : String) :
    ∀ fuel c, uploadFileAux (fun _ => some msg) p c fuel
      = ({ success := false, filePath := p, error := some msg,
           retryCount := c + fuel }, fuel + 1) := by
  intro fuel
  induction fuel with
  | zero => intro c; rfl
  | succ f ih =>
    intro c
    unfold uploadFileAux
    simp only []
    rw [ih (c + 1)]
    rw [show c + 1 + f = c + (f + 1) from by omega]

lemma getNextBatch_singleton_pending (bs : Nat) (hbs : 1 ≤ bs) (i : QueueItem)
    (h : i.status = QStatus.pending) : getNextBatch bs [i] = [i] := by
  unfold getNextBatch
  rw [show List.filter (fun x => x.status == QStatus.pending) [i] = [i] from by
    simp [List.filter_cons, h]]
  rw [show stableSort [i] = [i] from rfl]
  exact List.take_of_length_le (by simpa using hbs)

lemma processBatch_single_fail (r : Nat) (msg : String) (item : QueueItem)
    (a : Nat) (le : Option String) :
    (processBatch r (.ok ⟨[item.filePath], [], []⟩)
        (fun p => uploadFile r (fun _ => some msg) p)
        [{ item with attempts := a, lastError := le, status := .pending }]).1
      = [{ item with
            attempts := a + 1, lastError := some msg,
            status := if a + 1 ≥ r then QStatus.failed else QStatus.pending }] ∧
    (processBatch r (.ok ⟨[item.filePath], [], []⟩)
        (fun p => uploadFile r (fun _ => some msg) p)
        [{ item with attempts := a, lastError := le, status := .pending }]).2.2
      = r + 1 := by
  have hup : uploadFile r (fun _ => some msg) item.filePath
      = ({ success := false, filePath := item.filePath, error := some msg,
           retryCount := r }, r + 1) := by
    unfold uploadFile
    rw [uploadFileAux_fail msg item.filePath r 0, Nat.zero_add]
  by_cases hterm : a + 1 ≥ r
  · constructor
    · simp [processBatch, skipPhase, uploadPhase, updateFirst, List.find?, hup, hterm]
    · simp [processBatch, skipPhase, uploadPhase, updateFirst, List.find?, hup, hterm]
  · constructor
    · simp [processBatch, skipPhase, uploadPhase, updateFirst, List.find?, hup, hterm]
    · simp [processBatch, skipPhase, uploadPhase, updateFirst, List.find?, hup, hterm]

lemma mergeBack_single (i j : QueueItem) (hid : j.id = i.id) :
    mergeBack [i] [j] = [j] := by
  unfold mergeBack
  rw [List.map_cons, List.map_nil]
  simp [List.find?_cons, hid]

lemma runQueue_not_pending (r bs : Nat) (dupCheck : List String → Except String DupPartition)
    (upload : String → UploadResult × Nat) (i : QueueItem)
    (h : ¬ i.status = QStatus.pending) :
    ∀ fuel, runQueue r bs dupCheck upload fuel [i] = ([i], 0) := by
  intro fuel
  cases fuel with
  | zero => rfl
  | succ f =>
    unfold runQueue
    rw [if_neg (by simp [h])]

lemma runQueue_single_always_fail (r bs : Nat) (msg : String) (item : QueueItem)
    (hbs : 1 ≤ bs) :
    ∀ fuel a le, a < r → r - a ≤ fuel →
      runQueue r bs (fun paths => .ok ⟨paths, [], []⟩)
          (fun p => uploadFile r (fun _ => some msg) p) fuel
          [{ item with attempts := a, lastError := le, status := .pending }]
        = ([{ item with attempts := r, lastError := some msg, status := .failed }],
           (r - a) * (r + 1)) := by
  intro fuel
  induction fuel with
  | zero =>
    intro a le ha hf
    exact absurd hf (by omega)
  | succ f ih =>
    intro a le ha hf
    unfold runQueue
    rw [if_pos (by simp)]
    simp only []
    rw [getNextBatch_singleton_pending bs hbs _ rfl]
    simp only [List.map_cons, List.map_nil]
    obtain ⟨hpb1, hpb2⟩ := processBatch_single_fail r msg item a le
    rw [hpb1, hpb2]
    by_cases hterm : a + 1 ≥ r
    · have har : a + 1 = r := by omega
      rw [if_pos hterm, har]
      rw [mergeBack_single { item with attempts := a, lastError := le, status := QStatus.pending }
        { item with attempts := r, lastError := some msg, status := QStatus.failed } rfl]
      rw [runQueue_not_pending r bs _ _
        { item with attempts := r, lastError := some msg, status := QStatus.failed }
        (by simp) f]
      rw [show r - a = 1 from by omega, Nat.one_mul]
      rfl
    · rw [if_neg hterm]
      rw [mergeBack_single { item with attempts := a, lastError := le, status := QStatus.pending }
        { item with attempts := a + 1, lastError := some msg, status := QStatus.pending } rfl]
      rw [ih (a + 1) (some msg) (by omega) (by omega)]
      rw [show r - a = (r - (a + 1)) + 1 from by omega, Nat.succ_mul]
      simp only [Prod.mk.injEq]
      exact ⟨trivial, by omega⟩

/-- The queue item of the retry-exhaustion scenario. -/
def itemC1 : QueueItem := ⟨1, "1.1.21_1.jpg", 0, 10, 0, none, .pending⟩

/-- C1 counterexample: with `retryAttempts = 3` (the shipped default)
and an always-failing upload, the drained queue leaves the item
`failed` with `attempts = 3` — not `retryAttempts + 1 = 4` — and
`12 = 3 × 4` remote upload attempts were made, not `4`: the queue
counts upload-client invocations in `attempts`, and each invocation
already performs the `retryAttempts` internal retries itself. -/
theorem uploadQueue_retry_exhaustion_counterexample :
    (runQueue 3 5 (fun paths => .ok ⟨paths, [], []⟩)
        (fun p => uploadFile 3 (fun _ => some "network error") p) 10 [itemC1]).1.map
        (fun i => (i.status, i.attempts)) = [(QStatus.failed, 3)] ∧
    (runQueue 3 5 (fun paths => .ok ⟨paths, [], []⟩)
        (fun p => uploadFile 3 (fun _ => some "network error") p) 10 [itemC1]).2 = 12 ∧
    ¬ ((3 : Nat) = 3 + 1) ∧ ¬ ((12 : Nat) = 3 + 1) := by decide

/-- C1 (amended): for `retryAttempts = r ≥ 1` and an item whose upload
always fails, one-shot draining marks the item `failed` with
`attempts = r` (not `r + 1`) after `r` upload-client invocations; each
invocation performs `r + 1` remote attempts (the initial attempt plus
`r` internal retries with exponential backoff), so `r * (r + 1)` remote
upload attempts happen in total. -/
theorem uploadQueue_retry_exhaustion (r bs fuel : Nat) (msg : String) (item : QueueItem)
    (hr : 1 ≤ r) (hbs : 1 ≤ bs) (hfuel : r ≤ fuel)
    (hst : item.status = QStatus.pending) (hat : item.attempts = 0) :
    runQueue r bs (fun paths => .ok ⟨paths, [], []⟩)
        (fun p => uploadFile r (fun _ => some msg) p) fuel [item]
      = ([{ item with attempts := r, lastError := some msg, status := .failed }],
         r * (r + 1)) := by
  obtain ⟨iid, ifp, ipri, iad, iat, ile, ist⟩ := item
  simp only at hst hat
  subst hst hat
  exact runQueue_single_always_fail r bs msg ⟨iid, ifp, ipri, iad, 0, ile, QStatus.pending⟩
    hbs fuel 0 ile (by omega) (by omega)

/-- Witness for `uploadQueue_retry_exhaustion` at the default
configuration `retryAttempts = 3`, `batchSize = 5`. -/
theorem uploadQueue_retry_exhaustion_witness :
    (1 ≤ 3 ∧ 1 ≤ 5 ∧ 3 ≤ 10 ∧ itemC1.status = QStatus.pending ∧ itemC1.attempts = 0) ∧
    runQueue 3 5 (fun paths => .ok ⟨paths, [], []⟩)
        (fun p => uploadFile 3 (fun _ => some "network error") p) 10 [itemC1]
      = ([{ itemC1 with
            attempts := 3, lastError := some "network error",
            status := .failed }], 3 * (3 + 1)) :=
  ⟨⟨by decide, by decide, by decide, by decide, by decide⟩,
   uploadQueue_retry_exhaustion 3 5 10 "network error" itemC1
     (by decide) (by decide) (by decide) (by decide) (by decide)⟩

end DiaryComics